import Mathlib

/-!
Shallow embedding of the prompt-evaluation harness.

Evaluation engine (`src/ape/evaluate/evaluate.py` and
`src/peter/evaluate/evaluate.py`): the per-item wrapper `wrapped_program`
with its shared error budget, the single-thread dispatch path built on
`asyncio.gather`, the multi-thread dispatch path with its cancellation
flag and SIGINT handler scope, and the reconciliation / aggregation done
by `Evaluate.__call__`.

Optimizer controller (`src/ape/optimizer/mipro/mipro_with_hil.py`):
`create_or_load_study`, `suggest_next_prompt` and `complete_trial`
against a modelled Optuna RDB storage.

Opaque external values (model predictions, example payloads, exception
objects, prompt dumps, dataset items) are represented by natural-number
identifiers; scores are rationals.
-/

namespace Ape

/-- A model prediction as seen by the reconciler: the error path of
`wrapped_program` records the empty dict `{}` as output, the success path
records whatever the prompt returned (opaque, id by a natural). -/
inductive Prediction where
  | empty
  | value (v : ℕ)
deriving DecidableEq, Repr

instance {ε α : Type} [DecidableEq ε] [DecidableEq α] :
    DecidableEq (Except ε α) := fun x y =>
  match x, y with
  | .ok a, .ok b => decidable_of_iff (a = b) (by simp)
  | .ok _, .error _ => .isFalse (by simp)
  | .error _, .ok _ => .isFalse (by simp)
  | .error e, .error f => decidable_of_iff (e = f) (by simp)

/-- What running `prompt(**inputs)` followed by `metric(...)` does for one
item: either produces an (opaque) prediction and a score, or raises an
exception (opaque, id by a natural). -/
def Outcome : Type := Except ℕ (ℕ × ℚ)

instance : DecidableEq Outcome := by
  unfold Outcome
  infer_instance

/-- One dataset item: its payload (opaque id, standing for the example /
its `model_dump()`) and the outcome of evaluating the prompt on it. -/
structure Item where
  id : ℕ
  run : Outcome
deriving DecidableEq

/-- One entry of `reordered_devset`: the tuple
`(example_idx, example, prediction, score)`. -/
structure Row where
  exampleIdx : ℕ
  exampleData : ℕ
  prediction : Prediction
  score : ℚ
deriving DecidableEq, Repr

/-- `wrapped_program(example_idx, example)` (evaluate.py): on success it
returns the scored tuple; on an exception it increments the shared
`error_count` under the lock and re-raises when the post-increment count
has reached `max_errors`, otherwise it records the placeholder
`(example_idx, example, {}, 0.0)`.  The threaded state is the instance's
`error_count`. -/
def wrappedProgram (maxErrors : ℕ) (idx : ℕ) (item : Item) (errCount : ℕ) :
    Except ℕ Row × ℕ :=
  match item.run with
  | .ok (p, s) => (.ok ⟨idx, item.id, .value p, s⟩, errCount)
  | .error e =>
      let c := errCount + 1
      if maxErrors ≤ c then (.error e, c)
      else (.ok ⟨idx, item.id, .empty, 0⟩, c)

/-- `asyncio.gather` over `bounded_process_item(idx, arg) for idx, arg in
devset` in `_execute_single_thread_async`: results come back in submission
order; a re-raised exception propagates out of the gather and aborts the
run.  The input list is already `list(enumerate(devset))`. -/
def gatherResults (maxErrors : ℕ) :
    List (ℕ × Item) → ℕ → Except ℕ (List Row) × ℕ
  | [], c => (.ok [], c)
  | (idx, it) :: rest, c =>
      match wrappedProgram maxErrors idx it c with
      | (.error e, c') => (.error e, c')
      | (.ok row, c') =>
          match gatherResults maxErrors rest c' with
          | (.error e, c'') => (.error e, c'')
          | (.ok rows, c'') => (.ok (row :: rows), c'')

/-- Result triple of `_execute_single_thread_async` /
`_execute_multi_thread_async`: `reordered_devset, ncorrect, ntotal`. -/
structure ExecResult where
  reordered : List Row
  ncorrect : ℚ
  ntotal : ℕ
deriving DecidableEq, Repr

/-- The result-accumulation loop shared by both executors: for each
completed result, append it to `reordered_devset`, add its score to
`ncorrect`, and bump `ntotal`. -/
def accumulate (rows : List Row) : ExecResult :=
  ⟨rows, (rows.map Row.score).sum, rows.length⟩

/-- `Evaluate._execute_single_thread_async`: gather all wrapped results
(submission order), then fold them into `(reordered_devset, ncorrect,
ntotal)`. -/
def execSingle (maxErrors : ℕ) (devset : List Item) (errCount : ℕ) :
    Except ℕ ExecResult × ℕ :=
  match gatherResults maxErrors devset.enum errCount with
  | (.error e, c) => (.error e, c)
  | (.ok rows, c) => (.ok (accumulate rows), c)

/-- Python `round(x)` (round half to even) for a rational. -/
def pyRoundHalfEven (q : ℚ) : ℤ :=
  let f := ⌊q⌋
  let frac := q - f
  if frac < 1 / 2 then f
  else if 1 / 2 < frac then f + 1
  else if f % 2 = 0 then f else f + 1

/-- Python `round(x, 2)` for a rational. -/
def pyRound2 (q : ℚ) : ℚ := (pyRoundHalfEven (q * 100) : ℚ) / 100

/-- Injective key for ordering predictions inside a row comparison. -/
def Prediction.key : Prediction → ℕ
  | .empty => 0
  | .value v => v + 1

/-- Python's `sorted(reordered_devset)` compares the tuples
`(example_idx, example, prediction, score)` lexicographically; in any
actual run the comparison is decided by the distinct `example_idx` alone. -/
def rowLe (a b : Row) : Prop :=
  a.exampleIdx < b.exampleIdx ∨
    (a.exampleIdx = b.exampleIdx ∧
      (a.exampleData < b.exampleData ∨
        (a.exampleData = b.exampleData ∧
          (a.prediction.key < b.prediction.key ∨
            (a.prediction.key = b.prediction.key ∧ a.score ≤ b.score)))))

instance : DecidableRel rowLe := by
  intro a b
  unfold rowLe
  infer_instance

/-- `predicted_devset = sorted(reordered_devset)`. -/
def sortRows (rows : List Row) : List Row := List.insertionSort rowLe rows

/-- The distinct top-level failures of `Evaluate.__call__`: a re-raised
item exception (error budget exhausted) or the `ZeroDivisionError` from
`round(100 * ncorrect / ntotal, ...)` when `ntotal == 0`. -/
inductive EvalError where
  | itemError (e : ℕ)
  | divisionByZero
deriving DecidableEq, Repr

/-- The tail of `Evaluate.__call__` after the executor returns: sort the
results back into index order and compute `round(100 * ncorrect / ntotal,
2)`; with `ntotal == 0` the division raises instead. -/
def finalize (r : ExecResult) : Except EvalError (ℚ × List Row) :=
  if r.ntotal = 0 then .error .divisionByZero
  else .ok (pyRound2 (100 * r.ncorrect / (r.ntotal : ℚ)), sortRows r.reordered)

/-- `Evaluate.__call__` on the single-thread path (ape variant /
`num_threads == 1`): enumerate the devset, dispatch, then reconcile.
State threaded through: the instance's `error_count`. -/
def evaluateCall (maxErrors : ℕ) (devset : List Item) (errCount : ℕ) :
    Except EvalError (ℚ × List Row) × ℕ :=
  match execSingle maxErrors devset errCount with
  | (.error e, c) => (.error (.itemError e), c)
  | (.ok r, c) => (finalize r, c)

/-- Outcome of `cancellable_wrapped_prompt`: either the distinguished
`job_cancelled` marker or a real wrapped result. -/
inductive CWResult where
  | cancelled
  | result (r : Row)
deriving DecidableEq, Repr

/-- `cancellable_wrapped_prompt(idx, arg, executor)`
(peter/evaluate/evaluate.py): if `self.cancel_jobs.is_set()` when the
task starts, return the cancelled marker without running the worker;
otherwise run `wrapped_program` in the executor.  `flagAtStart` is the
value of the cancellation flag observed by this task's initial check. -/
def cancellableWrappedPrompt (maxErrors : ℕ) (flagAtStart : Bool) (idx : ℕ)
    (item : Item) (errCount : ℕ) : Except ℕ CWResult × ℕ :=
  if flagAtStart then (.ok .cancelled, errCount)
  else
    match wrappedProgram maxErrors idx item errCount with
    | (.error e, c) => (.error e, c)
    | (.ok row, c) => (.ok (.result row), c)

/-- The `process_devset` loop of `_execute_multi_thread_async`: awaits the
tasks as they complete (the input list order is the completion order; each
pair carries the flag value its task observed at start), skips cancelled
markers (`continue`), and accumulates `(reordered_devset, ncorrect,
ntotal)`.  A re-raised budget exception propagates out of the loop. -/
def processDevset (maxErrors : ℕ) :
    List ((ℕ × Item) × Bool) → ℕ → Except ℕ ExecResult × ℕ
  | [], c => (.ok ⟨[], 0, 0⟩, c)
  | ((idx, it), flag) :: rest, c =>
      match cancellableWrappedPrompt maxErrors flag idx it c with
      | (.error e, c') => (.error e, c')
      | (.ok .cancelled, c') => processDevset maxErrors rest c'
      | (.ok (.result row), c') =>
          match processDevset maxErrors rest c' with
          | (.error e, c'') => (.error e, c'')
          | (.ok r, c'') =>
              (.ok ⟨row :: r.reordered, row.score + r.ncorrect, r.ntotal + 1⟩, c'')

/-- The process-wide SIGINT handler as observable from
`_execute_multi_thread_async`: either whatever handler was installed
before the run, or the run's own `interrupt_handler`. -/
inductive SigHandler where
  | previous
  | custom
deriving DecidableEq, Repr

/-- Top-level failures of the multi-thread executor: a re-raised item
exception, or the `KeyboardInterrupt` raised when the cancellation flag
was set. -/
inductive MTError where
  | itemError (e : ℕ)
  | keyboardInterrupt
deriving DecidableEq, Repr

/-- `Evaluate._execute_multi_thread_async`: `interrupt_handler_manager`
saves the current SIGINT handler and installs the custom one, then the
body runs.  Because the context manager has no `try/finally` around its
`yield`, the restoring `signal.signal(SIGINT, default_handler)` executes
only when the body returns normally: an exception thrown out of
`process_devset` propagates through the generator and skips the restore.
After the `with` block, if `self.cancel_jobs.is_set()` the run raises
`KeyboardInterrupt` instead of returning.  `flagAtEnd` is the flag value
after all tasks resolved; the third component of the output is the SIGINT
handler left installed when the call returns or raises. -/
def executeMultiThread (maxErrors : ℕ) (pairs : List ((ℕ × Item) × Bool))
    (flagAtEnd : Bool) (errCount : ℕ) :
    Except MTError ExecResult × ℕ × SigHandler :=
  match processDevset maxErrors pairs errCount with
  | (.error e, c) => (.error (.itemError e), c, .custom)
  | (.ok r, c) =>
      if flagAtEnd then (.error .keyboardInterrupt, c, .previous)
      else (.ok r, c, .previous)

end Ape

namespace Mipro

/-- A prompt variant: an opaque body (what `Prompt.dump()`/`Prompt.load`
round-trip verbatim) plus the `fewshot` attribute that
`suggest_next_prompt` assigns.  Few-shot sets / `DatasetItem` dumps are
opaque naturals. -/
structure Prompt where
  body : ℕ
  fewshot : Option ℕ
deriving DecidableEq, Repr, Inhabited

/-- One completed Optuna trial as stored in the study ledger: the chosen
categorical indices and the score told back. -/
structure Trial where
  instruction : ℕ
  fewshot : ℕ
  score : ℚ
deriving DecidableEq, Repr

/-- One persisted study: its trial ledger and the two JSON-encoded
study-level user attributes `prompt_candidates` / `fewshot_candidates`
(absent until `create_or_load_study` writes them). -/
structure StudyRecord where
  trials : List Trial
  promptCandidates : Option (List Prompt)
  fewshotCandidates : Option (List ℕ)
deriving DecidableEq, Repr

/-- The Optuna RDB storage: studies keyed by `study_name`. -/
def Storage : Type := List (String × StudyRecord)

instance : DecidableEq Storage := by
  unfold Storage
  infer_instance

instance : Repr Storage := by
  unfold Storage
  infer_instance

/-- Look a study up by name. -/
def getStudy (s : Storage) (n : String) : Option StudyRecord :=
  match s with
  | [] => none
  | (m, r) :: rest => if m = n then some r else getStudy rest n

/-- Write a study record under a name (replace or append). -/
def setStudy (s : Storage) (n : String) (r : StudyRecord) : Storage :=
  match s with
  | [] => [(n, r)]
  | (m, q) :: rest =>
      if m = n then (n, r) :: rest else (m, q) :: setStudy rest n r

/-- The in-memory candidate pools held on the `MIPROWithHIL` instance
(`self.instruction_candidates`, `self.fewshot_candidates`; both default
to `[]` on a fresh controller). -/
structure ControllerState where
  instructionCandidates : List Prompt
  fewshotCandidates : List ℕ
deriving DecidableEq, Repr

/-- The fail-fast configuration errors of `create_or_load_study`:
`ValueError("Storage is not set up.")`, `ValueError("Trainset is required
for a new study.")`, `ValueError("Task description is required for a new
study.")`, and the `KeyError` from `study.user_attrs[...]` when a
resumed study lacks the persisted candidate attributes. -/
inductive ConfigError where
  | storageNotSetUp
  | trainsetRequired
  | taskDescriptionRequired
  | keyError
deriving DecidableEq, Repr

/-- Python truthiness of the `trainset` argument: `not trainset` holds
for `None` and for an empty dataset. -/
def falsyDataset : Option (List ℕ) → Bool
  | none => true
  | some [] => true
  | some (_ :: _) => false

/-- Python truthiness of `task_description`: `not task_description` holds
for `None` and for the empty string. -/
def falsyText : Option String → Bool
  | none => true
  | some s => s == ""

/-- Everything `create_or_load_study` leaves behind: the returned
`(study, is_new_study)` pair (here the controller's updated in-memory
state plus `is_new_study`) or the raised error; the storage after the
call (`none` when no backend was configured); and the number of
`MIPROProposer.generate_candidates` invocations performed so far. -/
structure COLSOutput where
  result : Except ConfigError (ControllerState × Bool)
  storageAfter : Option Storage
  genCalls : ℕ
deriving DecidableEq, Repr

/-- `MIPROWithHIL.create_or_load_study`.  `gen` is the opaque
`MIPROProposer.generate_candidates` oracle, indexed by how many times it
has been called (successive calls may propose different candidates);
`genCalls` is that call counter.  Mirrors the source: storage check;
`optuna.create_study(load_if_exists=True)` (which persists an empty study
record when the name is new); `is_new_study = len(study.trials) == 0`; on
a new study the trainset/task-description checks, candidate generation,
and the two `set_user_attr` writes — assigning only
`self.instruction_candidates`, never `self.fewshot_candidates`; on resume
both pools are deserialized verbatim from the user attributes. -/
def createOrLoadStudy (gen : ℕ → List Prompt) (genCalls : ℕ)
    (storage? : Option Storage) (studyName : String)
    (trainset : Option (List ℕ)) (taskDescription : Option String)
    (st : ControllerState) : COLSOutput :=
  match storage? with
  | none => ⟨.error .storageNotSetUp, none, genCalls⟩
  | some storage =>
      let record := (getStudy storage studyName).getD ⟨[], none, none⟩
      let storage1 := setStudy storage studyName record
      if record.trials.length = 0 then
        if falsyDataset trainset then
          ⟨.error .trainsetRequired, some storage1, genCalls⟩
        else if falsyText taskDescription then
          ⟨.error .taskDescriptionRequired, some storage1, genCalls⟩
        else
          let cands := gen genCalls
          let record' := { record with
            promptCandidates := some cands,
            fewshotCandidates := some (trainset.getD []) }
          ⟨.ok ({ st with instructionCandidates := cands }, true),
           some (setStudy storage1 studyName record'), genCalls + 1⟩
      else
        match record.promptCandidates, record.fewshotCandidates with
        | some pc, some fc =>
            ⟨.ok (⟨pc, fc⟩, false), some storage1, genCalls⟩
        | _, _ => ⟨.error .keyError, some storage1, genCalls⟩

/-- `study.ask()` followed by `study.tell(trial, score)`
(`suggest_next_prompt` + `complete_trial`): one completed trial appended
to the study's persisted ledger. -/
def tellTrial (s : Storage) (n : String) (t : Trial) : Storage :=
  match getStudy s n with
  | none => s
  | some r => setStudy s n { r with trials := r.trials ++ [t] }

/-- `trial.suggest_categorical(name, range(n))`: Optuna raises on an
empty choice list, and otherwise the sampler returns some element of the
list; `pick` is the sampler's (opaque) decision, reduced into range. -/
def suggestCategorical (numChoices : ℕ) (pick : ℕ) : Option ℕ :=
  if numChoices = 0 then none else some (pick % numChoices)

/-- `MIPROWithHIL.suggest_next_prompt`: ask a trial, suggest an
instruction index over `range(len(instruction_candidates))` and a
few-shot index over `range(len(fewshot_candidates))`, and return the
chosen instruction candidate with the chosen few-shot set bound to its
`fewshot` attribute.  `none` models the Optuna error on an empty
categorical range. -/
def suggestNextPrompt (st : ControllerState) (pickI pickF : ℕ) :
    Option ((ℕ × ℕ) × Prompt) :=
  match suggestCategorical st.instructionCandidates.length pickI with
  | none => none
  | some i =>
      match suggestCategorical st.fewshotCandidates.length pickF with
      | none => none
      | some j =>
          let prompt := st.instructionCandidates.getD i default
          some ((i, j),
            { prompt with fewshot := some (st.fewshotCandidates.getD j 0) })

end Mipro

namespace Ape

/-- How many items of a devset raise. -/
def failCount : List Item → ℕ
  | [] => 0
  | it :: rest =>
      match it.run with
      | .ok _ => failCount rest
      | .error _ => failCount rest + 1

/-- The exceptions raised by a devset's items, in dataset order. -/
def failExns : List Item → List ℕ
  | [] => []
  | it :: rest =>
      match it.run with
      | .ok _ => failExns rest
      | .error e => e :: failExns rest

/-- The row a tolerated run records for one enumerated item: the real
scored tuple on success, the zero-score placeholder with the empty-dict
output on a recoverable failure. -/
def itemRow : ℕ × Item → Row
  | (idx, it) =>
      match it.run with
      | .ok (p, s) => ⟨idx, it.id, .value p, s⟩
      | .error _ => ⟨idx, it.id, .empty, 0⟩

end Ape

namespace Mipro

/-- A concrete stand-in for the `MIPROProposer.generate_candidates`
oracle whose successive calls propose different candidate pools: call
number `n` proposes the single prompt with body `n`. -/
def genExample : ℕ → List Prompt := fun n => [⟨n, none⟩]

end Mipro

namespace Ape

/-- Evaluating `pyRound2` at a concrete argument whose fractional part
(after scaling by 100) falls below the half-point. -/
theorem pyRound2_of_floor_lt (q : ℚ) (n : ℤ) (h1 : (n : ℚ) ≤ q * 100)
    (h2 : q * 100 - n < 1 / 2) : pyRound2 q = (n : ℚ) / 100 := by
  have hfl : ⌊q * 100⌋ = n := by
    rw [Int.floor_eq_iff]
    exact ⟨h1, by linarith⟩
  unfold pyRound2 pyRoundHalfEven
  rw [hfl]
  simp only []
  rw [if_pos (by linarith)]

/-- Evaluating `pyRound2` at a concrete argument whose fractional part
(after scaling by 100) falls above the half-point. -/
theorem pyRound2_of_half_lt (q : ℚ) (n : ℤ) (h1 : (n : ℚ) ≤ q * 100)
    (h2 : q * 100 < (n : ℚ) + 1) (h3 : 1 / 2 < q * 100 - n) :
    pyRound2 q = ((n : ℚ) + 1) / 100 := by
  have hfl : ⌊q * 100⌋ = n := by
    rw [Int.floor_eq_iff]
    exact ⟨h1, by linarith⟩
  unfold pyRound2 pyRoundHalfEven
  rw [hfl]
  simp only []
  rw [if_neg (by linarith), if_pos (by linarith)]
  push_cast
  ring

/-- One step of a lexicographic comparison is transitive. -/
theorem lexStep {x y z : ℕ} {p q r : Prop} (hxy : x < y ∨ (x = y ∧ p))
    (hyz : y < z ∨ (y = z ∧ q)) (htrans : p → q → r) :
    x < z ∨ (x = z ∧ r) := by
  rcases hxy with h | ⟨hx, hp⟩
  · rcases hyz with h' | ⟨hy, _⟩
    · exact Or.inl (h.trans h')
    · exact Or.inl (hy ▸ h)
  · rcases hyz with h' | ⟨hy, hq⟩
    · exact Or.inl (hx ▸ h')
    · exact Or.inr ⟨hx.trans hy, htrans hp hq⟩

/-- One step of a lexicographic comparison is total. -/
theorem lexTotal {x y : ℕ} {p q : Prop} (h : p ∨ q) :
    (x < y ∨ (x = y ∧ p)) ∨ (y < x ∨ (y = x ∧ q)) := by
  rcases Nat.lt_trichotomy x y with h1 | h1 | h1
  · exact Or.inl (Or.inl h1)
  · rcases h with hp | hq
    · exact Or.inl (Or.inr ⟨h1, hp⟩)
    · exact Or.inr (Or.inr ⟨h1.symm, hq⟩)
  · exact Or.inr (Or.inl h1)

/-- One step of a lexicographic comparison is antisymmetric. -/
theorem lexAntisymm {x y : ℕ} {p q : Prop} (h1 : x < y ∨ (x = y ∧ p))
    (h2 : y < x ∨ (y = x ∧ q)) : x = y ∧ p ∧ q := by
  rcases h1 with h | ⟨hx, hp⟩
  · rcases h2 with h' | ⟨hy, _⟩
    · omega
    · omega
  · rcases h2 with h' | ⟨hy, hq⟩
    · omega
    · exact ⟨hx, hp, hq⟩

/-- `Prediction.key` is injective. -/
theorem Prediction.key_inj {p q : Prediction} (h : p.key = q.key) :
    p = q := by
  cases p <;> cases q <;> simp only [Prediction.key] at h
  · rfl
  · omega
  · omega
  · exact congrArg Prediction.value (by omega)

instance : IsTrans Row rowLe :=
  ⟨fun a b c hab hbc => by
    unfold rowLe at *
    refine lexStep hab hbc fun h1 h2 => ?_
    refine lexStep h1 h2 fun h3 h4 => ?_
    refine lexStep h3 h4 fun h5 h6 => ?_
    exact h5.trans h6⟩

instance : IsTotal Row rowLe :=
  ⟨fun a b => by
    unfold rowLe
    exact lexTotal (lexTotal (lexTotal (le_total a.score b.score)))⟩

instance : IsAntisymm Row rowLe :=
  ⟨fun a b hab hba => by
    unfold rowLe at hab hba
    obtain ⟨h1, hr1, hr2⟩ := lexAntisymm hab hba
    obtain ⟨h2, hr3, hr4⟩ := lexAntisymm hr1 hr2
    obtain ⟨h3, hs1, hs2⟩ := lexAntisymm hr3 hr4
    have hpred := Prediction.key_inj h3
    have hscore : a.score = b.score := le_antisymm hs1 hs2
    cases a
    cases b
    simp only [Row.mk.injEq]
    exact ⟨h1, h2, hpred, hscore⟩⟩

/-- Sorting is invariant under permutation of the input. -/
theorem sortRows_perm {l₁ l₂ : List Row} (h : l₁.Perm l₂) :
    sortRows l₁ = sortRows l₂ :=
  List.eq_of_perm_of_sorted
    ((List.perm_insertionSort rowLe l₁).trans
      (h.trans (List.perm_insertionSort rowLe l₂).symm))
    (List.sorted_insertionSort rowLe l₁)
    (List.sorted_insertionSort rowLe l₂)

end Ape

namespace Ape

/-- `wrapped_program` never decreases the shared error counter. -/
theorem wrappedProgram_mono (M idx : ℕ) (it : Item) (c : ℕ) :
    c ≤ (wrappedProgram M idx it c).2 := by
  unfold wrappedProgram
  rcases it.run with e | ⟨p, s⟩
  · dsimp only
    split <;> omega
  · exact le_refl c

/-- A successful `wrapped_program` result carries the index it was
dispatched with. -/
theorem wrappedProgram_idx (M idx : ℕ) (it : Item) (c c1 : ℕ) (row : Row)
    (hw : wrappedProgram M idx it c = (.ok row, c1)) :
    row.exampleIdx = idx := by
  unfold wrappedProgram at hw
  rcases hrun : it.run with e | ⟨p, s⟩ <;> rw [hrun] at hw
  · dsimp only at hw
    split at hw
    · simp at hw
    · simp only [Prod.mk.injEq, Except.ok.injEq] at hw
      rw [← hw.1]
  · simp only [Prod.mk.injEq, Except.ok.injEq] at hw
    rw [← hw.1]

/-- The gather loop never decreases the shared error counter. -/
theorem gatherResults_mono (M : ℕ) (l : List (ℕ × Item)) (c c' : ℕ)
    (res : Except ℕ (List Row)) (h : gatherResults M l c = (res, c')) :
    c ≤ c' := by
  induction l generalizing c c' res with
  | nil =>
      simp only [gatherResults] at h
      cases h
      exact le_refl c
  | cons x rest ih =>
      obtain ⟨idx, it⟩ := x
      simp only [gatherResults] at h
      rcases hw : wrappedProgram M idx it c with ⟨wres, c1⟩
      have hm := wrappedProgram_mono M idx it c
      rw [hw] at h hm
      rcases wres with e | row
      · dsimp only at h
        cases h
        exact hm
      · dsimp only at h
        rcases hg : gatherResults M rest c1 with ⟨res2, c2⟩
        have h2 := ih c1 c2 res2 hg
        rw [hg] at h
        rcases res2 with e | rows <;> (try dsimp only at h) <;> cases h <;>
          exact hm.trans h2

/-- When the error budget is not exhausted along the way, the gather loop
returns one row per enumerated item — the real scored tuple for successes
and the zero-score empty-output placeholder for failures — and advances
the error counter by the number of failures. -/
theorem gatherResults_ok (M : ℕ) (l : List (ℕ × Item)) (c : ℕ)
    (h : c + failCount (l.map Prod.snd) < M) :
    gatherResults M l c =
      (.ok (l.map itemRow), c + failCount (l.map Prod.snd)) := by
  induction l generalizing c with
  | nil => simp [gatherResults, failCount]
  | cons x rest ih =>
      obtain ⟨idx, it⟩ := x
      simp only [List.map_cons] at h ⊢
      rcases hrun : it.run with e | ⟨p, s⟩
      · simp only [failCount, hrun] at h ⊢
        simp only [gatherResults, wrappedProgram, hrun]
        rw [if_neg (by omega)]
        try dsimp only
        rw [ih (c + 1) (by omega)]
        try dsimp only
        have hrow : (⟨idx, it.id, .empty, 0⟩ : Row) = itemRow (idx, it) := by
          simp [itemRow, hrun]
        rw [hrow]
        congr 1
        omega
      · simp only [failCount, hrun] at h ⊢
        simp only [gatherResults, wrappedProgram, hrun]
        try dsimp only
        rw [ih c (by omega)]
        try dsimp only
        have hrow : (⟨idx, it.id, .value p, s⟩ : Row) = itemRow (idx, it) := by
          simp [itemRow, hrun]
        rw [hrow]

/-- When the failures reach the budget, the gather loop aborts with the
exception whose post-increment counter value equals `max_errors`, leaving
the counter exactly there. -/
theorem gatherResults_fatal (M : ℕ) (l : List (ℕ × Item)) (c : ℕ)
    (hc : c < M) (h : M ≤ c + failCount (l.map Prod.snd)) :
    gatherResults M l c =
      (.error ((failExns (l.map Prod.snd)).getD (M - c - 1) 0), M) := by
  induction l generalizing c with
  | nil =>
      simp only [List.map_nil, failCount] at h
      omega
  | cons x rest ih =>
      obtain ⟨idx, it⟩ := x
      simp only [List.map_cons] at h ⊢
      rcases hrun : it.run with e | ⟨p, s⟩
      · simp only [failCount, failExns, hrun] at h ⊢
        simp only [gatherResults, wrappedProgram, hrun]
        by_cases hM : M ≤ c + 1
        · rw [if_pos hM]
          try dsimp only
          have hMe : M - c - 1 = 0 := by omega
          rw [hMe]
          simp only [List.getD_cons_zero]
          congr 1
          omega
        · rw [if_neg hM]
          try dsimp only
          rw [ih (c + 1) (by omega) (by omega)]
          have hidx : M - c - 1 = (M - (c + 1) - 1) + 1 := by omega
          rw [hidx, List.getD_cons_succ]
      · simp only [failCount, failExns, hrun] at h ⊢
        simp only [gatherResults, wrappedProgram, hrun]
        try dsimp only
        rw [ih c hc (by omega)]

/-- Every successful gather returns rows whose indices are exactly the
first components of the enumerated input, in order. -/
theorem gatherResults_map_fst (M : ℕ) (l : List (ℕ × Item)) (c c' : ℕ)
    (rows : List Row) (h : gatherResults M l c = (.ok rows, c')) :
    rows.map Row.exampleIdx = l.map Prod.fst := by
  induction l generalizing c c' rows with
  | nil =>
      simp only [gatherResults] at h
      cases h
      simp
  | cons x rest ih =>
      obtain ⟨idx, it⟩ := x
      simp only [gatherResults] at h
      rcases hw : wrappedProgram M idx it c with ⟨wres, c1⟩
      rw [hw] at h
      rcases wres with e | row
      · dsimp only at h
        simp at h
      · dsimp only at h
        rcases hg : gatherResults M rest c1 with ⟨res2, c2⟩
        rw [hg] at h
        rcases res2 with e | rows2
        · dsimp only at h
          simp at h
        · dsimp only at h
          injection h with h1 h2
          injection h1 with h3
          subst h3
          simp only [List.map_cons, wrappedProgram_idx M idx it c c1 row hw]
          rw [ih c1 c2 rows2 hg]

end Ape

namespace Ape

/-- A successful multi-thread loop's `ncorrect` is the sum of the scores
it accumulated and its `ntotal` the number of accumulated rows. -/
theorem processDevset_shape (M : ℕ) (pairs : List ((ℕ × Item) × Bool))
    (c c' : ℕ) (r : ExecResult) (h : processDevset M pairs c = (.ok r, c')) :
    r.ncorrect = (r.reordered.map Row.score).sum ∧
      r.ntotal = r.reordered.length := by
  induction pairs generalizing c c' r with
  | nil =>
      simp only [processDevset] at h
      cases h
      simp
  | cons x rest ih =>
      obtain ⟨⟨idx, it⟩, flag⟩ := x
      simp only [processDevset] at h
      rcases hw : cancellableWrappedPrompt M flag idx it c with ⟨res, c1⟩
      rw [hw] at h
      rcases res with e | cw
      · dsimp only at h
        simp at h
      · rcases cw with _ | row
        · dsimp only at h
          exact ih c1 c' r h
        · dsimp only at h
          rcases hg : processDevset M rest c1 with ⟨res2, c2⟩
          rw [hg] at h
          rcases res2 with e | r2
          · dsimp only at h
            simp at h
          · dsimp only at h
            injection h with h1 h2
            injection h1 with h3
            subst h3
            have hr := ih c1 c2 r2 hg
            constructor
            · simp only [List.map_cons, List.sum_cons]
              rw [hr.1]
            · simp only [List.length_cons]
              rw [hr.2]

/-- Dropping the pairs whose task observed the cancellation flag does not
change the multi-thread loop's outcome: cancelled markers contribute
neither rows nor counts nor error-counter changes. -/
theorem processDevset_filter (M : ℕ) (pairs : List ((ℕ × Item) × Bool))
    (c : ℕ) :
    processDevset M (pairs.filter fun p => !p.2) c =
      processDevset M pairs c := by
  induction pairs generalizing c with
  | nil => rfl
  | cons x rest ih =>
      obtain ⟨⟨idx, it⟩, flag⟩ := x
      cases flag
      · have hf : List.filter (fun p => !p.2) (((idx, it), false) :: rest) =
            ((idx, it), false) :: List.filter (fun p => !p.2) rest := by simp
        rw [hf]
        rcases hw : wrappedProgram M idx it c with ⟨res, c1⟩
        simp only [processDevset, cancellableWrappedPrompt, hw,
          Bool.false_eq_true, if_false]
        rcases res with e | row
        · rfl
        · dsimp only
          rw [ih c1]
      · have hf : List.filter (fun p => !p.2) (((idx, it), true) :: rest) =
            List.filter (fun p => !p.2) rest := by simp
        rw [hf]
        simp only [processDevset]
        have hcw : cancellableWrappedPrompt M true idx it c =
            (.ok .cancelled, c) := rfl
        rw [hcw]
        try dsimp only
        exact ih c

end Ape

namespace Ape

/-- C1: for an evaluation run with error budget `max_errors = M`, each of
the first `M - 1` item-level exceptions is recorded as a placeholder
result (empty output, score 0) and the run continues, while the exception
whose post-increment counter value reaches `M` is re-raised out of the
dispatcher and aborts the whole run with no aggregate result returned. -/
theorem claim1_error_budget (M : ℕ) (hM : 0 < M) (devset : List Item) :
    (failCount devset < M →
      gatherResults M devset.enum 0 =
        (.ok (devset.enum.map itemRow), failCount devset)) ∧
    (M ≤ failCount devset →
      evaluateCall M devset 0 =
        (.error (.itemError ((failExns devset).getD (M - 1) 0)), M)) := by
  have henum : devset.enum.map Prod.snd = devset := List.enum_map_snd devset
  constructor
  · intro h
    have hg := gatherResults_ok M devset.enum 0 (by rw [henum]; omega)
    rw [henum] at hg
    simpa using hg
  · intro h
    have hg := gatherResults_fatal M devset.enum 0 hM (by rw [henum]; omega)
    rw [henum] at hg
    unfold evaluateCall execSingle
    rw [hg]
    try dsimp only
    simp only [Nat.sub_zero]

/-- Witness for C1 at concrete inputs: with budget 2 a single failure is
tolerated as a zero-score placeholder; with budget 1 the first failure is
re-raised with no aggregate result. -/
theorem claim1_error_budget_witness :
    gatherResults 2 ([⟨10, .ok (5, 1)⟩, ⟨11, .error 42⟩] : List Item).enum 0 =
      (.ok [⟨0, 10, .value 5, 1⟩, ⟨1, 11, .empty, 0⟩], 1) ∧
    evaluateCall 1 [⟨10, .error 99⟩] 0 = (.error (.itemError 99), 1) := by
  constructor
  · rw [(claim1_error_budget 2 (by decide) _).1 (by decide)]
    with_unfolding_all rfl
  · rw [(claim1_error_budget 1 (by decide) _).2 (by decide)]
    with_unfolding_all rfl

/-- C2: absent cancellation and fatal abort, the single-thread dispatcher
produces exactly `N` results for a dataset of `N` items, their indices
are exactly `0, ..., N-1` each occurring once, and the reported `ntotal`
equals `N`. -/
theorem claim2_index_coverage (M : ℕ) (devset : List Item) (r : ExecResult)
    (c : ℕ) (h : execSingle M devset 0 = (.ok r, c)) :
    r.ntotal = devset.length ∧ r.reordered.length = devset.length ∧
      r.reordered.map Row.exampleIdx = List.range devset.length := by
  unfold execSingle at h
  rcases hg : gatherResults M devset.enum 0 with ⟨res, c1⟩
  rw [hg] at h
  rcases res with e | rows
  · dsimp only at h
    simp at h
  · dsimp only at h
    injection h with h1 h2
    injection h1 with h3
    subst h3
    have hmap := gatherResults_map_fst M devset.enum 0 c1 rows hg
    rw [List.enum_map_fst] at hmap
    have hlen : rows.length = devset.length := by
      have := congrArg List.length hmap
      simpa using this
    exact ⟨by simpa [accumulate] using hlen, by simpa [accumulate] using hlen,
      by simpa [accumulate] using hmap⟩

/-- Witness for C2 at a concrete two-item run. -/
theorem claim2_index_coverage_witness :
    (⟨[⟨0, 10, .value 5, 1⟩, ⟨1, 11, .empty, 0⟩], 1, 2⟩ : ExecResult).ntotal =
        2 ∧
      ([⟨0, 10, .value 5, 1⟩, ⟨1, 11, .empty, 0⟩] : List Row).length = 2 ∧
      ([⟨0, 10, .value 5, 1⟩, ⟨1, 11, .empty, 0⟩] : List Row).map
          Row.exampleIdx = List.range 2 :=
  claim2_index_coverage 9 [⟨10, .ok (5, 1)⟩, ⟨11, .error 42⟩]
    ⟨[⟨0, 10, .value 5, 1⟩, ⟨1, 11, .empty, 0⟩], 1, 2⟩ 1
    (by with_unfolding_all rfl)

end Ape

namespace Ape

/-- C3: in worker-thread mode a work item dispatched after the
cancellation flag is set returns the distinguished cancelled marker
without running the worker (the error counter is untouched); cancelled
markers are excluded from the result set, contributing to neither
`ntotal` nor `ncorrect` nor the rows; and once all outstanding tasks
resolve with the flag set, the run raises `KeyboardInterrupt` to its
caller instead of returning a result. -/
theorem claim3_cancellation :
    (∀ (M idx : ℕ) (it : Item) (c : ℕ),
      cancellableWrappedPrompt M true idx it c = (.ok .cancelled, c)) ∧
    (∀ (M : ℕ) (pairs : List ((ℕ × Item) × Bool)) (c : ℕ),
      processDevset M (pairs.filter fun p => !p.2) c =
        processDevset M pairs c) ∧
    (∀ (M : ℕ) (pairs : List ((ℕ × Item) × Bool)) (c c' : ℕ)
        (r : ExecResult), processDevset M pairs c = (.ok r, c') →
      executeMultiThread M pairs true c =
        (.error .keyboardInterrupt, c', .previous)) := by
  refine ⟨fun M idx it c => rfl,
    fun M pairs c => processDevset_filter M pairs c, ?_⟩
  intro M pairs c c' r h
  unfold executeMultiThread
  rw [h]
  dsimp only
  rw [if_pos rfl]

/-- Witness for C3 at concrete inputs: a cancelled item produces the
marker; mixing one cancelled pair into a run changes nothing; a run whose
flag ends up set raises `KeyboardInterrupt`. -/
theorem claim3_cancellation_witness :
    cancellableWrappedPrompt 9 true 0 ⟨10, .ok (5, 1)⟩ 0 =
      (.ok .cancelled, 0) ∧
    executeMultiThread 9 [((0, ⟨10, .ok (5, 1)⟩), false)] true 0 =
      (.error .keyboardInterrupt, 0, .previous) := by
  refine ⟨claim3_cancellation.1 9 0 ⟨10, .ok (5, 1)⟩ 0, ?_⟩
  exact claim3_cancellation.2.2 9 [((0, ⟨10, .ok (5, 1)⟩), false)] 0 0
    ⟨[⟨0, 10, .value 5, 1⟩], 1, 1⟩ (by with_unfolding_all rfl)

/-- C4: the evaluation call returns `round(100 * ncorrect / ntotal, 2)`
where `ncorrect` is the sum of the per-item scores as given (no
clamping) and `ntotal` the count of non-cancelled results, and it fails
with a division error exactly when `ntotal = 0` (empty or
fully-cancelled dataset). -/
theorem claim4_aggregate_formula :
    (∀ r : ExecResult, r.ntotal = 0 → finalize r = .error .divisionByZero) ∧
    (∀ r : ExecResult, r.ntotal ≠ 0 →
      finalize r =
        .ok (pyRound2 (100 * r.ncorrect / (r.ntotal : ℚ)),
          sortRows r.reordered)) ∧
    (∀ (M : ℕ) (devset : List Item) (c : ℕ) (r : ExecResult) (c' : ℕ),
      execSingle M devset c = (.ok r, c') →
      evaluateCall M devset c = (finalize r, c') ∧
        r.ncorrect = (r.reordered.map Row.score).sum ∧
        r.ntotal = r.reordered.length) ∧
    (∀ (M : ℕ) (pairs : List ((ℕ × Item) × Bool)) (f : Bool) (c : ℕ)
        (r : ExecResult) (c' : ℕ) (hdl : SigHandler),
      executeMultiThread M pairs f c = (.ok r, c', hdl) →
      r.ncorrect = (r.reordered.map Row.score).sum ∧
        r.ntotal = r.reordered.length) := by
  refine ⟨?_, ?_, ?_, ?_⟩
  · intro r h
    simp [finalize, h]
  · intro r h
    simp [finalize, h]
  · intro M devset c r c' h
    have h0 := h
    refine ⟨?_, ?_⟩
    · unfold evaluateCall
      rw [h0]
    · unfold execSingle at h
      rcases hg : gatherResults M devset.enum c with ⟨res, c1⟩
      rw [hg] at h
      rcases res with e | rows
      · dsimp only at h
        simp at h
      · dsimp only at h
        injection h with h1 h2
        injection h1 with h3
        subst h3
        simp [accumulate]
  · intro M pairs f c r c' hdl h
    unfold executeMultiThread at h
    rcases hp : processDevset M pairs c with ⟨res, c1⟩
    rw [hp] at h
    rcases res with e | r2
    · dsimp only at h
      simp at h
    · dsimp only at h
      cases f
      · simp only [Bool.false_eq_true, if_false] at h
        injection h with h1 h2
        injection h1 with h3
        subst h3
        exact processDevset_shape M pairs c c1 r2 hp
      · simp only [if_true] at h
        simp at h

/-- Witness for C4 at concrete inputs: the empty run divides by zero;
a one-item run returns the rounded percentage. -/
theorem claim4_aggregate_formula_witness :
    finalize ⟨[], 0, 0⟩ = .error .divisionByZero ∧
    evaluateCall 9 [⟨10, .ok (5, 1)⟩] 0 =
      (finalize ⟨[⟨0, 10, .value 5, 1⟩], 1, 1⟩, 0) := by
  refine ⟨claim4_aggregate_formula.1 ⟨[], 0, 0⟩ rfl, ?_⟩
  exact (claim4_aggregate_formula.2.2.1 9 [⟨10, .ok (5, 1)⟩] 0
    ⟨[⟨0, 10, .value 5, 1⟩], 1, 1⟩ 0 (by with_unfolding_all rfl)).1

/-- C5: reconciliation is order-independent — feeding the per-item
results to the reconciler in any permutation of completion order yields
the identical final average and the identical index-sorted row order,
because the results are sorted before aggregation and display. -/
theorem claim5_reconcile_order_independent (l₁ l₂ : List Row)
    (h : l₁.Perm l₂) :
    finalize (accumulate l₁) = finalize (accumulate l₂) := by
  have hn : l₁.length = l₂.length := h.length_eq
  have hs : (l₁.map Row.score).sum = (l₂.map Row.score).sum :=
    (h.map Row.score).sum_eq
  simp only [finalize, accumulate]
  rw [hn, hs, sortRows_perm h]

/-- Witness for C5 at a concrete two-row permutation. -/
theorem claim5_reconcile_order_independent_witness :
    finalize (accumulate [⟨1, 11, .empty, 0⟩, ⟨0, 10, .value 5, 1⟩]) =
      finalize (accumulate [⟨0, 10, .value 5, 1⟩, ⟨1, 11, .empty, 0⟩]) :=
  claim5_reconcile_order_independent _ _ (List.Perm.swap _ _ [])

/-- C9 concerns the claim that the SIGINT handler is restored regardless
of outcome.  The `interrupt_handler_manager` context manager has no
`try/finally`, so when the run exits by re-raising an item exception the
restore after the `yield` is skipped: at this failing input the custom
handler is still installed when the call raises. -/
theorem claim9_handler_not_restored :
    executeMultiThread 1 [((0, ⟨10, .error 7⟩), false)] false 0 =
      (.error (.itemError 7), 1, .custom) ∧
    SigHandler.custom ≠ SigHandler.previous := by
  exact ⟨by with_unfolding_all rfl, by decide⟩

/-- C10: the error counter is monotonically non-decreasing, `__call__`
never resets it (a tolerated run advances it by exactly its number of
failures, starting from the carried-over value), and a later run whose
carried-over counter already exhausts the budget aborts on its very
first item failure. -/
theorem claim10_error_count_accumulates :
    (∀ (M : ℕ) (devset : List Item) (c : ℕ)
        (res : Except EvalError (ℚ × List Row)) (c' : ℕ),
      evaluateCall M devset c = (res, c') → c ≤ c') ∧
    (∀ (M : ℕ) (devset : List Item) (c : ℕ), c + failCount devset < M →
      (evaluateCall M devset c).2 = c + failCount devset) ∧
    (∀ (M c : ℕ) (it : Item) (rest : List Item) (e : ℕ),
      it.run = .error e → M ≤ c + 1 →
      evaluateCall M (it :: rest) c = (.error (.itemError e), c + 1)) := by
  refine ⟨?_, ?_, ?_⟩
  · intro M devset c res c' h
    unfold evaluateCall execSingle at h
    rcases hg : gatherResults M devset.enum c with ⟨res1, c1⟩
    rw [hg] at h
    have hm := gatherResults_mono M devset.enum c c1 res1 hg
    rcases res1 with e | rows <;> dsimp only at h <;> cases h <;> exact hm
  · intro M devset c h
    have henum : devset.enum.map Prod.snd = devset := List.enum_map_snd devset
    have hg := gatherResults_ok M devset.enum c (by rw [henum]; omega)
    rw [henum] at hg
    unfold evaluateCall execSingle
    rw [hg]
  · intro M c it rest e hrun hM
    unfold evaluateCall execSingle
    rw [List.enum_cons]
    simp only [gatherResults, wrappedProgram, hrun]
    rw [if_pos hM]

/-- Witness for C10 at concrete inputs: a run carrying over `error_count
= 1` advances it by its failures; with budget 2 and one budget unit
already consumed, the next run aborts on its very first item failure. -/
theorem claim10_error_count_accumulates_witness :
    (evaluateCall 5 [⟨10, .error 9⟩] 1).2 = 1 + failCount [⟨10, .error 9⟩] ∧
    evaluateCall 2 [⟨10, .error 9⟩] 1 = (.error (.itemError 9), 2) := by
  constructor
  · exact claim10_error_count_accumulates.2.1 5 [⟨10, .error 9⟩] 1 (by decide)
  · exact claim10_error_count_accumulates.2.2 2 1 ⟨10, .error 9⟩ [] 9 rfl
      (by decide)

end Ape

namespace Mipro

/-- C6 counterexample: `is_new_study` is decided by
`len(study.trials) == 0`, so calling `create_or_load_study` a second time
on the same backend before any trial was told takes the new-study branch
again and regenerates the candidate pools — the second call's result
differs from the first call's. -/
theorem claim6_counterexample :
    (createOrLoadStudy genExample 1
        (createOrLoadStudy genExample 0 (some []) "s" (some [5]) (some "t")
            ⟨[], []⟩).storageAfter
        "s" (some [5]) (some "t") ⟨[], []⟩).result ≠
      (createOrLoadStudy genExample 0 (some []) "s" (some [5]) (some "t")
          ⟨[], []⟩).result := by
  decide

/-- C6 (amended): once at least one trial has been recorded, a repeated
`create_or_load_study` deserializes both candidate pools verbatim from
the persisted study attributes, never invokes the candidate generator
(the generation counter is unchanged), and leaves the persisted study —
its trial ledger included — unchanged. -/
theorem claim6_resume_deserializes_verbatim :
    (∀ (gen : ℕ → List Prompt) (gc : ℕ) (storage : Storage) (name : String)
        (record : StudyRecord) (st : ControllerState) (ts : Option (List ℕ))
        (td : Option String) (pc : List Prompt) (fc : List ℕ),
      getStudy storage name = some record → record.trials ≠ [] →
      record.promptCandidates = some pc → record.fewshotCandidates = some fc →
      createOrLoadStudy gen gc (some storage) name ts td st =
        ⟨.ok (⟨pc, fc⟩, false), some (setStudy storage name record), gc⟩) ∧
    (∀ (storage : Storage) (name : String) (record : StudyRecord),
      getStudy (setStudy storage name record) name = some record) := by
  constructor
  · intro gen gc storage name record st ts td pc fc hget htr hpc hfc
    unfold createOrLoadStudy
    dsimp only
    rw [hget]
    simp only [Option.getD_some]
    rw [if_neg (by simpa [List.length_eq_zero] using htr)]
    rw [hpc, hfc]
  · intro storage name record
    induction storage with
    | nil => simp [setStudy, getStudy]
    | cons x rest ih =>
        obtain ⟨m, q⟩ := x
        by_cases hm : m = name
        · simp [setStudy, getStudy, hm]
        · simp only [setStudy, getStudy, if_neg hm]
          exact ih

/-- Witness for the amended C6 at a concrete one-trial study. -/
theorem claim6_resume_deserializes_verbatim_witness :
    createOrLoadStudy genExample 5
        (some [("s", ⟨[⟨0, 0, 1⟩], some [⟨3, none⟩], some [7]⟩)]) "s"
        none none ⟨[], []⟩ =
      ⟨.ok (⟨[⟨3, none⟩], [7]⟩, false),
        some (setStudy [("s", ⟨[⟨0, 0, 1⟩], some [⟨3, none⟩], some [7]⟩)]
          "s" ⟨[⟨0, 0, 1⟩], some [⟨3, none⟩], some [7]⟩), 5⟩ :=
  claim6_resume_deserializes_verbatim.1 genExample 5
    [("s", ⟨[⟨0, 0, 1⟩], some [⟨3, none⟩], some [7]⟩)] "s"
    ⟨[⟨0, 0, 1⟩], some [⟨3, none⟩], some [7]⟩ ⟨[], []⟩ none none
    [⟨3, none⟩] [7] (by decide) (by decide) rfl rfl

/-- C7 concerns the claim that after a new study the in-memory few-shot
pool equals the trainset and every `suggest_next_prompt` draws valid
indices from both pools.  The new-study branch persists the trainset but
never assigns `self.fewshot_candidates`, so on a fresh controller the
pool stays empty and the very next suggestion fails on the empty
categorical range. -/
theorem claim7_fewshot_pool_not_assigned :
    (createOrLoadStudy genExample 0 (some []) "s" (some [5]) (some "t")
        ⟨[], []⟩).result = .ok (⟨[⟨0, none⟩], []⟩, true) ∧
    (⟨[⟨0, none⟩], []⟩ : ControllerState).fewshotCandidates ≠ [5] ∧
    suggestNextPrompt ⟨[⟨0, none⟩], []⟩ 0 0 = none := by
  refine ⟨by decide, by decide, rfl⟩

/-- C8: creating a new study (no persisted trials) with a missing or
empty training set, or with a missing/empty task description, fails fast
with the corresponding `ValueError` before any candidate generation
(the generation counter is unchanged); and a controller with no
configured persistence backend fails immediately. -/
theorem claim8_config_fail_fast :
    (∀ (gen : ℕ → List Prompt) (gc : ℕ) (name : String)
        (ts : Option (List ℕ)) (td : Option String) (st : ControllerState),
      createOrLoadStudy gen gc none name ts td st =
        ⟨.error .storageNotSetUp, none, gc⟩) ∧
    (∀ (gen : ℕ → List Prompt) (gc : ℕ) (storage : Storage) (name : String)
        (ts : Option (List ℕ)) (td : Option String) (st : ControllerState),
      ((getStudy storage name).getD ⟨[], none, none⟩).trials = [] →
      falsyDataset ts = true →
      createOrLoadStudy gen gc (some storage) name ts td st =
        ⟨.error .trainsetRequired,
          some (setStudy storage name
            ((getStudy storage name).getD ⟨[], none, none⟩)), gc⟩) ∧
    (∀ (gen : ℕ → List Prompt) (gc : ℕ) (storage : Storage) (name : String)
        (ts : Option (List ℕ)) (td : Option String) (st : ControllerState),
      ((getStudy storage name).getD ⟨[], none, none⟩).trials = [] →
      falsyDataset ts = false → falsyText td = true →
      createOrLoadStudy gen gc (some storage) name ts td st =
        ⟨.error .taskDescriptionRequired,
          some (setStudy storage name
            ((getStudy storage name).getD ⟨[], none, none⟩)), gc⟩) := by
  refine ⟨fun gen gc name ts td st => rfl, ?_, ?_⟩
  · intro gen gc storage name ts td st htr hts
    unfold createOrLoadStudy
    dsimp only
    rw [if_pos (by rw [htr]; rfl)]
    rw [hts]
    rw [if_pos rfl]
  · intro gen gc storage name ts td st htr hts htd
    unfold createOrLoadStudy
    dsimp only
    rw [if_pos (by rw [htr]; rfl)]
    rw [hts, htd]
    rw [if_neg (by simp), if_pos rfl]

/-- Witness for C8 at concrete inputs: no backend, empty trainset, and
missing task description each fail fast with the generation counter
unchanged. -/
theorem claim8_config_fail_fast_witness :
    createOrLoadStudy genExample 4 none "s" (some [5]) (some "t") ⟨[], []⟩ =
      ⟨.error .storageNotSetUp, none, 4⟩ ∧
    createOrLoadStudy genExample 4 (some []) "s" (some []) (some "t")
        ⟨[], []⟩ =
      ⟨.error .trainsetRequired, some (setStudy [] "s" ⟨[], none, none⟩), 4⟩ ∧
    createOrLoadStudy genExample 4 (some []) "s" (some [5]) none ⟨[], []⟩ =
      ⟨.error .taskDescriptionRequired,
        some (setStudy [] "s" ⟨[], none, none⟩), 4⟩ :=
  ⟨claim8_config_fail_fast.1 genExample 4 "s" (some [5]) (some "t") ⟨[], []⟩,
    claim8_config_fail_fast.2.1 genExample 4 [] "s" (some []) (some "t")
      ⟨[], []⟩ rfl rfl,
    claim8_config_fail_fast.2.2 genExample 4 [] "s" (some [5]) none
      ⟨[], []⟩ rfl rfl rfl⟩

end Mipro
